import Mathlib

/-!
Formal model of the archive reader in `tools/ndk-link/ArchiveReader.cpp`
(functions `Archive::parseMemberHeader`, `Archive::checkSignature`,
`Archive::loadArchive`, `Archive::loadSymbolTable`,
`Archive::findModuleDefiningSymbol`, `Archive::findModulesDefiningSymbols`,
`Archive::isBitcodeArchive`).

The mapped archive file is modelled as `List Nat` (one `Nat` per byte),
pointers as indices from the mapped base, and the machine address of the
base as an explicit `baseAddr` parameter, because the source tests pointer
parity (`intptr_t(At) & 1`) when skipping the pad byte after a payload.

The collaborators (bitcode symbol extraction `GetBitcodeSymbols`, the lazy
loader `getLazyBitcodeModule`, and the full parser `parseBitcodeFile`) are
opaque fallible functions of the payload position and size; they are taken
as parameters, and loaded modules are identified by a `Nat` id.

A failed load returns `Except.error` and discards the partially mutated
collections; the source leaves them indeterminate in that case (spec
section 7), and no theorem below depends on a post-failure state.

Modelled from the spec: the header layout and the sentinel names come from
`ArchiveInternals.h`, which declares the fixed 60-byte Unix `ar` member
header (name 16 bytes, date 12, uid 6, gid 6, mode 8, size 10, 2-byte
terminator magic 0x60 0x0A) and the sentinel strings; the symbol table and
module cache types come from `Archive.h` and are ordinary maps
(`std::map`), whose `insert` keeps an existing entry on key collision.
-/

namespace ArchiveReader

/-- Read `n` bytes of the buffer starting at index `i` (fewer if the
buffer ends first). -/
def getBytes (buf : List Nat) (i n : Nat) : List Nat := (buf.drop i).take n

/-- C `isspace` on a byte. -/
def isSpaceB (c : Nat) : Bool := c = 32 || (9 ≤ c && c ≤ 13)

/-- C `isdigit` on a byte. -/
def isDigitB (c : Nat) : Bool := 48 ≤ c && c ≤ 57

/-- Octal digit test, for `sscanf` with a `%o` conversion. -/
def isOctB (c : Nat) : Bool := 48 ≤ c && c ≤ 55

/-- Value of the leading decimal-digit run of a byte string. -/
def digitsVal (l : List Nat) : Nat :=
  (l.takeWhile isDigitB).foldl (fun a c => a * 10 + (c - 48)) 0

/-- Value of the leading octal-digit run of a byte string. -/
def octVal (l : List Nat) : Nat :=
  (l.takeWhile isOctB).foldl (fun a c => a * 8 + (c - 48)) 0

/-- C `atoi`: skip leading whitespace, then an optional sign, then a
decimal digit run; `0` when no digits follow. -/
def atoiB (l : List Nat) : Int :=
  let l1 := l.dropWhile isSpaceB
  match l1 with
  | 43 :: rest => (digitsVal rest : Int)
  | 45 :: rest => -(digitsVal rest : Int)
  | _ => (digitsVal l1 : Int)

/-- `sscanf(field, "%o", &mode)`: skip whitespace, parse an octal run. -/
def sscanfOct (l : List Nat) : Nat := octVal (l.dropWhile isSpaceB)

/-- C `memchr(l, c, l.length)`: index of the first occurrence of byte `c`. -/
def memchrIdx (c : Nat) : List Nat → Option Nat
  | [] => none
  | b :: rest => if b = c then some 0 else (memchrIdx c rest).map (· + 1)

/-- `l[i]`, a single byte read (0 when out of range, which the checked
paths never are). -/
def byteAt (l : List Nat) (i : Nat) : Nat := l.getD i 0

/-- The bytes of `l` before the first occurrence of `c`, or all of `l`
when `c` does not occur (the `memchr` + `assign` idiom of the source). -/
def nameUpToChar (c : Nat) (l : List Nat) : List Nat :=
  match memchrIdx c l with
  | some k => l.take k
  | none => l

/-- `ARFILE_MAGIC`, the 8-byte file magic. -/
def ARFILE_MAGIC : List Nat := [33, 60, 97, 114, 99, 104, 62, 10]

/-- `ARFILE_STRTAB_NAME`: two slashes padded with 14 blanks. -/
def ARFILE_STRTAB_NAME : List Nat := [47, 47] ++ List.replicate 14 32

/-- `ARFILE_SVR4_SYMTAB_NAME`: a slash padded with 15 blanks. -/
def ARFILE_SVR4_SYMTAB_NAME : List Nat := 47 :: List.replicate 15 32

/-- `ARFILE_BSD4_SYMTAB_NAME`: `__.SYMDEF` padded with 7 blanks. -/
def ARFILE_BSD4_SYMTAB_NAME : List Nat :=
  [95, 95, 46, 83, 89, 77, 68, 69, 70] ++ List.replicate 7 32

/-- The flag set of `ArchiveMember` (bits of the `flags` field that
`parseMemberHeader` can set). -/
structure MemberFlags where
  hasLongFilename : Bool := false
  stringTable : Bool := false
  svr4SymbolTable : Bool := false
  bsd4SymbolTable : Bool := false
  bitcode : Bool := false
deriving DecidableEq, Repr

/-- One parsed archive member. `dataOfs` is the index (from the mapped
base) of the payload, the source's non-owning `data` pointer; `size` is
the possibly name-adjusted `MemberSize`. -/
structure ArchiveMember where
  path : List Nat
  size : Int
  date : Int
  user : Int
  group : Int
  mode : Nat
  flags : MemberFlags
  dataOfs : Nat
deriving DecidableEq, Repr

/-- The first four payload bytes classified as bitcode
(`sys::fs::identify_magic` against `BC\xC0\xDE`). -/
def isBitcodeAt (buf : List Nat) (ofs : Nat) : Bool :=
  decide (getBytes buf ofs 4 = [66, 67, 192, 222])

/-- The scan of the string table for a `/digits` name: starting with
`lastp = p`, find `p` with `strtab[p] = LF` and `strtab[lastp] = slash`
where `lastp` trails `p` by one step; returns the index of the slash. -/
def strtabScan (strtab : List Nat) (lastp p endp : Nat) : Option Nat :=
  if h : p < endp then
    if strtab.getD p 0 = 10 ∧ strtab.getD lastp 0 = 47 then some lastp
    else strtabScan strtab p (p + 1) endp
  else none
termination_by endp - p
decreasing_by omega

/-- The name-decoding switch of `parseMemberHeader`. `hdrStart` is the
index of the header (= of its 16-byte name field). Returns the decoded
path, the count of inline name bytes consumed from the payload, and the
flags implied by the encoding. -/
def decodeName (buf strtab : List Nat) (hdrStart : Nat) :
    Except String (List Nat × Nat × MemberFlags) :=
  let name := getBytes buf hdrStart 16
  let n0 := byteAt name 0
  let n1 := byteAt name 1
  if n0 = 35 then
    -- case of a name starting with the hash byte
    if n1 = 49 ∧ byteAt name 2 = 47 then
      if isDigitB (byteAt name 3) then
        let len := (atoiB (buf.drop (hdrStart + 3))).toNat
        let blk := getBytes buf (hdrStart + 60) len
        .ok (nameUpToChar 0 blk, len, { hasLongFilename := true })
      else .error "invalid long filename"
    else .ok ([], 0, {})
  else if n0 = 47 then
    -- case of a name starting with a slash
    if n1 = 47 then
      if name = ARFILE_STRTAB_NAME then
        .ok (ARFILE_STRTAB_NAME, 0, { stringTable := true })
      else .error "invalid string table name"
    else if n1 = 32 then
      if name = ARFILE_SVR4_SYMTAB_NAME then
        .ok (ARFILE_SVR4_SYMTAB_NAME, 0, { svr4SymbolTable := true })
      else .error "invalid SVR4 symbol table name"
    else if isDigitB n1 then
      let index := (atoiB (buf.drop (hdrStart + 1))).toNat
      if index < strtab.length then
        match strtabScan strtab index index strtab.length with
        | some lastp =>
          .ok ((strtab.drop index).take (lastp - index), 0,
               { hasLongFilename := true })
        | none => .error "missing name terminator in string table"
      else .error "name index beyond string table"
    else .ok ([], 0, {})
  else if n0 = 95 ∧ n1 = 95 ∧ name = ARFILE_BSD4_SYMTAB_NAME then
    .ok (ARFILE_BSD4_SYMTAB_NAME, 0, { bsd4SymbolTable := true })
  else
    -- default: bytes up to the first slash, or all 16 bytes
    .ok (nameUpToChar 47 name, 0, {})

/-- `Archive::parseMemberHeader`: parse the fixed 60-byte header at index
`At` against buffer end `E`, decode the name, sniff the bitcode magic,
and return the member together with the advanced cursor (the payload
index). The `assert(MemberSize >= 0)` of the source is modelled as a
failure. -/
def parseMemberHeader (buf strtab : List Nat) (At E : Nat) :
    Except String (ArchiveMember × Nat) :=
  if At + 60 ≥ E then .error "Unexpected end of file"
  else if atoiB (buf.drop (At + 48)) < 0 then
    .error "assert MemberSize nonnegative"
  else if (At : Int) + 60 + atoiB (buf.drop (At + 48)) > (E : Int) then
    .error "invalid member length in archive file"
  else if getBytes buf (At + 58) 2 ≠ [96, 10] then
    .error "invalid file member signature"
  else
    match decodeName buf strtab At with
    | .error e => .error e
    | .ok (path, consumed, fl) =>
      .ok ({ path := path
             size := atoiB (buf.drop (At + 48)) - (consumed : Int)
             date := atoiB (buf.drop (At + 16))
             user := atoiB (buf.drop (At + 28))
             group := atoiB (buf.drop (At + 34))
             mode := sscanfOct (getBytes buf (At + 40) 8)
             flags := { fl with bitcode := isBitcodeAt buf (At + 60 + consumed) }
             dataOfs := At + 60 + consumed }, At + 60 + consumed)

/-- The per-instance state of an `Archive`: the ordered member list, the
symbol table (name to archive-relative offset), the module cache (offset
to loaded module id), the captured string-table blob, and
`firstFileOffset`. The two tables are `std::map`s, modelled as
association lists with insert-if-absent. -/
structure ArchiveState where
  members : List ArchiveMember
  symTab : List (String × Nat)
  modules : List (Nat × Nat)
  strtab : List Nat
  firstFileOffset : Nat
deriving DecidableEq, Repr

/-- The freshly constructed `Archive`. -/
def initState : ArchiveState :=
  { members := [], symTab := [], modules := [], strtab := [],
    firstFileOffset := 0 }

/-- `std::map::find` on the symbol table. -/
def symFind : List (String × Nat) → String → Option Nat
  | [], _ => none
  | (k1, v) :: t, k => if k1 = k then some v else symFind t k

/-- `std::map::insert` on the symbol table: a pre-existing entry for the
key is kept, not overwritten. -/
def symInsert (t : List (String × Nat)) (k : String) (v : Nat) :
    List (String × Nat) :=
  if (symFind t k).isSome then t else (k, v) :: t

/-- `std::map::find` on the module cache. -/
def modFind : List (Nat × Nat) → Nat → Option Nat
  | [], _ => none
  | (k1, v) :: t, k => if k1 = k then some v else modFind t k

/-- `std::map::insert` on the module cache. -/
def modInsert (t : List (Nat × Nat)) (k : Nat) (v : Nat) :
    List (Nat × Nat) :=
  if (modFind t k).isSome then t else (k, v) :: t

/-- The advance to the next header after a member: `At += mbr->getSize()`
followed by `if ((intptr_t(At) & 1) == 1) At++`. `newAt` is the cursor
after the header (the payload index), `size` the member's size; the
parity test is on the machine address `baseAddr + cursor`. -/
def advanceCursor (baseAddr newAt : Nat) (size : Int) : Nat :=
  if (baseAddr + ((newAt : Int) + size).toNat) % 2 = 1 then
    ((newAt : Int) + size).toNat + 1
  else ((newAt : Int) + size).toNat

/-- `Archive::checkSignature`: the buffer holds at least 8 bytes and
starts with the file magic. -/
def checkSignature (buf : List Nat) : Prop :=
  ¬ (buf.length < 8 ∨ getBytes buf 0 8 ≠ ARFILE_MAGIC)

instance (buf : List Nat) : Decidable (checkSignature buf) := by
  unfold checkSignature; infer_instance

/-- The scan loop of `Archive::loadArchive`: parse headers from `At`
until the buffer end, skipping foreign symbol tables, capturing the
string table, and appending ordinary members; the offset of the first
ordinary member is recorded once in `firstFileOffset`. The loop is given
fuel that strictly exceeds any possible iteration count (each iteration
advances the cursor by at least the 60-byte header). -/
def loadArchiveLoop (buf : List Nat) (baseAddr : Nat) :
    Nat → Nat → Bool → ArchiveState → Except String ArchiveState
  | 0, _, _, _ => .error "loop limit exceeded"
  | fuel + 1, At, foundFirst, st =>
    if At < buf.length then
      match parseMemberHeader buf st.strtab At buf.length with
      | .error e => .error e
      | .ok (mbr, newAt) =>
        if mbr.flags.svr4SymbolTable = true ∨ mbr.flags.bsd4SymbolTable = true then
          loadArchiveLoop buf baseAddr fuel
            (advanceCursor baseAddr newAt mbr.size) foundFirst st
        else if mbr.flags.stringTable = true then
          loadArchiveLoop buf baseAddr fuel
            (advanceCursor baseAddr newAt mbr.size) foundFirst
            { st with strtab := getBytes buf newAt mbr.size.toNat }
        else
          loadArchiveLoop buf baseAddr fuel
            (advanceCursor baseAddr newAt mbr.size) true
            { st with members := st.members ++ [mbr],
                      firstFileOffset :=
                        if foundFirst then st.firstFileOffset else At }
    else .ok st

/-- `Archive::loadArchive`: clear the member list and the symbol table
(the string table is left as it was), check the file magic, then scan
all members starting just past the magic. -/
def loadArchive (buf : List Nat) (baseAddr : Nat) (st : ArchiveState) :
    Except String ArchiveState :=
  if checkSignature buf then
    loadArchiveLoop buf baseAddr (buf.length + 1) 8 false
      { st with members := ([] : List ArchiveMember),
                symTab := ([] : List (String × Nat)) }
  else .error "invalid signature for an archive file"

/-- The tail of `Archive::loadSymbolTable` from the string-table test on:
capture the string table when present (then parse the following header),
record the single anchor member and `firstFileOffset`. -/
def loadSymbolTableStr (buf : List Nat) (baseAddr : Nat) (st : ArchiveState)
    (firstFile : Nat) (mbr : ArchiveMember) (newAt : Nat) :
    Except String ArchiveState :=
  if mbr.flags.stringTable = true then
    match parseMemberHeader buf (getBytes buf newAt mbr.size.toNat)
        (advanceCursor baseAddr newAt mbr.size) buf.length with
    | .error e => .error e
    | .ok (mbr3, _) =>
      .ok { st with members := [mbr3],
                    strtab := getBytes buf newAt mbr.size.toNat,
                    firstFileOffset := advanceCursor baseAddr newAt mbr.size }
  else .ok { st with members := [mbr], firstFileOffset := firstFile }

/-- `Archive::loadSymbolTable` (the anchor loader): clear the member
list, check the magic, parse the first header, skip a foreign symbol
table when present, capture the string table when present, and record
the final decoded header as the sole member and its offset as
`firstFileOffset`. It never touches the symbol table. -/
def loadSymbolTable (buf : List Nat) (baseAddr : Nat) (st : ArchiveState) :
    Except String ArchiveState :=
  if checkSignature buf then
    match parseMemberHeader buf st.strtab 8 buf.length with
    | .error e => .error e
    | .ok (mbr1, newAt1) =>
      if mbr1.flags.svr4SymbolTable = true ∨ mbr1.flags.bsd4SymbolTable = true then
        match parseMemberHeader buf st.strtab
            (advanceCursor baseAddr newAt1 mbr1.size) buf.length with
        | .error e => .error e
        | .ok (mbr2, newAt2) =>
          loadSymbolTableStr buf baseAddr
            { st with members := ([] : List ArchiveMember) }
            (advanceCursor baseAddr newAt1 mbr1.size) mbr2 newAt2
      else
        loadSymbolTableStr buf baseAddr
          { st with members := ([] : List ArchiveMember) } 8 mbr1 newAt1
  else .error "invalid signature for an archive file"

/-- The symbol-indexing scan of `Archive::findModulesDefiningSymbols`
(run when the symbol table is empty): starting at `firstFileOffset`,
parse each member; for a bitcode member hand its payload to the
collaborator `gbs` (`GetBitcodeSymbols`, taking the payload index and
size and yielding the defined symbol names and a module id), insert each
name keyed to the relative offset `At - firstFileOffset`, and insert the
module into the cache keyed by that same relative offset. -/
def buildIndexLoop (buf : List Nat) (baseAddr : Nat)
    (gbs : Nat → Int → Option (List String × Nat)) :
    Nat → Nat → ArchiveState → Except String ArchiveState
  | 0, _, _ => .error "loop limit exceeded"
  | fuel + 1, At, st =>
    if At < buf.length then
      match parseMemberHeader buf st.strtab At buf.length with
      | .error e => .error e
      | .ok (mbr, newAt) =>
        if mbr.flags.bitcode = true then
          match gbs mbr.dataOfs mbr.size with
          | some (syms, m) =>
            buildIndexLoop buf baseAddr gbs fuel
              (advanceCursor baseAddr newAt mbr.size)
              { st with
                symTab := syms.foldl
                  (fun t s => symInsert t s (At - st.firstFileOffset)) st.symTab,
                modules := modInsert st.modules (At - st.firstFileOffset) m }
          | none => .error "Can not parse bitcode member"
        else
          buildIndexLoop buf baseAddr gbs fuel
            (advanceCursor baseAddr newAt mbr.size) st
    else .ok st

/-- `Archive::findModuleDefiningSymbol`: look the name up in the symbol
table (a miss is not an error), add `firstFileOffset` to the stored
relative offset, consult the module cache at that absolute offset, and
on a miss re-parse the header there and hand the payload to the lazy
loader `glbm` (`getLazyBitcodeModule`), caching the result keyed by the
absolute offset. Parse or load failures yield `none`, like the source's
null return. -/
def findModuleDefiningSymbol (buf : List Nat)
    (glbm : Nat → Int → Option Nat) (st : ArchiveState) (symbol : String) :
    Option Nat × ArchiveState :=
  match symFind st.symTab symbol with
  | none => (none, st)
  | some rel =>
    match modFind st.modules (rel + st.firstFileOffset) with
    | some m => (some m, st)
    | none =>
      match parseMemberHeader buf st.strtab (rel + st.firstFileOffset)
          buf.length with
      | .error _ => (none, st)
      | .ok (mbr, _) =>
        match glbm mbr.dataOfs mbr.size with
        | none => (none, st)
        | some m =>
          (some m, { st with
                     modules := modInsert st.modules
                       (rel + st.firstFileOffset) m })

/-- The resolution loop of `Archive::findModulesDefiningSymbols` over the
requested names (in the set's iteration order): resolve each name; on a
hit whose module is not yet in `added`, append the module to the result
and drop the name from the set; otherwise keep the name. Returns the
result list, the names remaining in the caller's set, and the state. -/
def resolveLoop (buf : List Nat) (glbm : Nat → Int → Option Nat) :
    List String → List Nat → List Nat → ArchiveState →
    List Nat × List String × ArchiveState
  | [], _, res, st => (res, [], st)
  | n :: rest, added, res, st =>
    match findModuleDefiningSymbol buf glbm st n with
    | (none, st1) =>
      match resolveLoop buf glbm rest added res st1 with
      | (r1, r2, r3) => (r1, n :: r2, r3)
    | (some m, st1) =>
      if m ∈ added then
        match resolveLoop buf glbm rest added res st1 with
        | (r1, r2, r3) => (r1, n :: r2, r3)
      else resolveLoop buf glbm rest (m :: added) (res ++ [m]) st1

/-- `Archive::findModulesDefiningSymbols`: fail when the archive is not
mapped; when the symbol table is empty run the indexing scan from
`firstFileOffset`; then resolve every requested name. The final `Bool`
of the result records whether the indexing scan ran (it runs exactly
when the symbol table was empty on entry). -/
def findModulesDefiningSymbols (buf : List Nat) (baseAddr : Nat)
    (mapped : Bool) (gbs : Nat → Int → Option (List String × Nat))
    (glbm : Nat → Int → Option Nat) (symbols : List String)
    (st : ArchiveState) :
    Except String (List Nat × List String × ArchiveState × Bool) :=
  if mapped = false then
    .error "Empty archive invalid for finding modules defining symbols"
  else
    match (if st.symTab.isEmpty then
             buildIndexLoop buf baseAddr gbs (buf.length + 1)
               st.firstFileOffset st
           else .ok st) with
    | .error e => .error e
    | .ok st1 =>
      match resolveLoop buf glbm symbols [] [] st1 with
      | (r1, r2, r3) => .ok (r1, r2, r3, st.symTab.isEmpty)

/-- The tail of `Archive::isBitcodeArchive` after the bootstrap: answer
true immediately when the symbol table is non-empty; otherwise run a
full load and try the collaborator `pbf` (`parseBitcodeFile`) on the
first member flagged bitcode — its success is the answer; with no
bitcode member the answer is false. -/
def isBitcodeArchiveAfter (buf : List Nat) (baseAddr : Nat)
    (pbf : Nat → Int → Bool) (st : ArchiveState) : Bool × ArchiveState :=
  if st.symTab.isEmpty = false then (true, st)
  else
    match loadArchive buf baseAddr st with
    | .error _ => (false, st)
    | .ok st2 =>
      match st2.members.find? (fun m => m.flags.bitcode) with
      | some m => (pbf m.dataOfs m.size, st2)
      | none => (false, st2)

/-- `Archive::isBitcodeArchive`: when the symbol table is empty first run
`loadSymbolTable` (a failure downgrades the answer to false), then
decide as in `isBitcodeArchiveAfter`. It always yields a boolean and
never propagates an error. -/
def isBitcodeArchive (buf : List Nat) (baseAddr : Nat)
    (pbf : Nat → Int → Bool) (st : ArchiveState) : Bool × ArchiveState :=
  if st.symTab.isEmpty then
    match loadSymbolTable buf baseAddr st with
    | .error _ => (false, st)
    | .ok st1 => isBitcodeArchiveAfter buf baseAddr pbf st1
  else isBitcodeArchiveAfter buf baseAddr pbf st

/-! Concrete archives used as test inputs for the theorems below. -/

/-- A field of a member header: content padded to width `w` with blanks. -/
def mkField (content : List Nat) (w : Nat) : List Nat :=
  content ++ List.replicate (w - content.length) 32

/-- A 60-byte member header with the given name and size fields; date,
uid and gid are the digit `0`, the mode is `644`. -/
def mkHeader (name size : List Nat) : List Nat :=
  mkField name 16 ++ mkField [48] 12 ++ mkField [48] 6 ++ mkField [48] 6 ++
  mkField [54, 52, 52] 8 ++ mkField size 10 ++ [96, 10]

/-- Archive A: the magic, then one ordinary member named `a/` with a
4-byte bitcode payload. Its header is at offset 8, payload at 68. -/
def bufA : List Nat :=
  ARFILE_MAGIC ++ mkHeader [97, 47] [52] ++ [66, 67, 192, 222]

/-- Archive B: two ordinary bitcode members `a/` and `b/`, each with a
4-byte payload; headers at offsets 8 and 72, payloads at 68 and 132. -/
def bufB : List Nat :=
  ARFILE_MAGIC ++ mkHeader [97, 47] [52] ++ [66, 67, 192, 222] ++
  mkHeader [98, 47] [52] ++ [66, 67, 192, 222]

/-- Archive N: one ordinary member `a/` whose 4-byte payload is not
bitcode. -/
def bufN : List Nat :=
  ARFILE_MAGIC ++ mkHeader [97, 47] [52] ++ [1, 2, 3, 4]

/-- Archive H: one member whose name field starts with a hash byte but
does not match the inline long-name encoding (`#x`, then blanks). -/
def bufH : List Nat :=
  ARFILE_MAGIC ++ mkHeader [35, 120] [52] ++ [1, 2, 3, 4]

/-- Archive L: one member with inline long name `#1/4`, size field 8:
the 4 name bytes `ab`, NUL, `x` followed by the 4-byte payload. -/
def bufL : List Nat :=
  ARFILE_MAGIC ++ mkHeader [35, 49, 47, 52] [56] ++
  [97, 98, 0, 120] ++ [66, 67, 192, 222]

/-- The member of archive A (and the first member of archive B), as
`parseMemberHeader` decodes it. -/
def mA : ArchiveMember :=
  { path := [97], size := 4, date := 0, user := 0, group := 0, mode := 420,
    flags := { bitcode := true }, dataOfs := 68 }

/-- The member of archive N. -/
def mN : ArchiveMember :=
  { path := [97], size := 4, date := 0, user := 0, group := 0, mode := 420,
    flags := {}, dataOfs := 68 }

/-- The state `loadSymbolTable` produces on archives A and B: the anchor
member, `firstFileOffset = 8`, an empty symbol table. -/
def stA : ArchiveState :=
  { members := [mA], symTab := [], modules := [], strtab := [],
    firstFileOffset := 8 }

/-- The state `loadSymbolTable` produces on archive N. -/
def stN : ArchiveState :=
  { members := [mN], symTab := [], modules := [], strtab := [],
    firstFileOffset := 8 }

/-- A symbol-extraction collaborator for archive A: the payload at 68
defines the single symbol `s`, and the extracted module has id 5. -/
def gbsA : Nat → Int → Option (List String × Nat) :=
  fun ofs _ => if ofs = 68 then some (["s"], 5) else none

/-- A lazy-loading collaborator for archive A: loading the payload at 68
yields the module id 7 (a second materialization of the same member). -/
def glbmA : Nat → Int → Option Nat :=
  fun ofs _ => if ofs = 68 then some 7 else none

/-- A symbol-extraction collaborator for archive B: both members define
the same symbol `s`; their modules have ids 10 and 20. -/
def gbsB : Nat → Int → Option (List String × Nat) :=
  fun ofs _ =>
    if ofs = 68 then some (["s"], 10)
    else if ofs = 132 then some (["s"], 20) else none

/-- A symbol-extraction collaborator for archive A where the single
member defines the two symbols `a` and `b`; its module has id 5. -/
def gbs3 : Nat → Int → Option (List String × Nat) :=
  fun ofs _ => if ofs = 68 then some (["a", "b"], 5) else none

/-- A lazy-loading collaborator agreeing with `gbs3` on module identity. -/
def glbm3 : Nat → Int → Option Nat :=
  fun ofs _ => if ofs = 68 then some 5 else none

/-- The state after `findModulesDefiningSymbols` on archive A with
`gbs3`/`glbm3` and the request set with `a` and `b`. -/
def stFin : ArchiveState :=
  { members := [mA], symTab := [("b", 0), ("a", 0)],
    modules := [(8, 5), (0, 5)], strtab := [], firstFileOffset := 8 }

/-! Helper lemmas. -/

/-- The `memchr` + `assign` idiom equals taking the prefix free of the
searched byte. -/
theorem nameUpToChar_eq_takeWhile (c : Nat) (l : List Nat) :
    nameUpToChar c l = l.takeWhile (fun b => b ≠ c) := by
  induction l with
  | nil => rfl
  | cons b rest ih =>
    by_cases hb : b = c
    · subst hb; simp [nameUpToChar, memchrIdx]
    · have hc : List.takeWhile (fun b => b ≠ c) (b :: rest) =
          b :: List.takeWhile (fun b => b ≠ c) rest := by
        simp [List.takeWhile_cons, hb]
      rw [hc]
      unfold nameUpToChar at ih ⊢
      rw [memchrIdx, if_neg hb]
      cases h : memchrIdx c rest with
      | none => rw [h] at ih; exact congrArg (List.cons b) ih
      | some k => rw [h] at ih; exact congrArg (List.cons b) ih

/-- An entry present in the symbol table survives a `std::map::insert`
of any other (or the same) key. -/
theorem symInsert_preserves (t : List (String × Nat)) (k2 : String)
    (v2 : Nat) (k1 : String) (v : Nat) (h : symFind t k1 = some v) :
    symFind (symInsert t k2 v2) k1 = some v := by
  unfold symInsert
  split
  · exact h
  · rename_i habs
    by_cases hk : k2 = k1
    · subst hk
      rw [h] at habs
      simp at habs
    · simpa [symFind, hk] using h

/-- An entry survives the fold inserting a member's symbol list. -/
theorem foldl_symInsert_preserves (off : Nat) (syms : List String) :
    ∀ t k v, symFind t k = some v →
      symFind (syms.foldl (fun t s => symInsert t s off) t) k = some v := by
  induction syms with
  | nil => intro t k v h; exact h
  | cons s rest ih =>
    intro t k v h
    exact ih _ _ _ (symInsert_preserves t s off k v h)

/-- A successful `parseMemberHeader` returns a cursor and member size
whose sum is the header start plus 60 plus the header's size field
(inline long names shift bytes between the two but not the sum), the
size field is non-negative, and the member's data pointer is the
returned cursor. -/
theorem parseMemberHeader_advance (buf strtab : List Nat) (At E : Nat)
    (m : ArchiveMember) (newAt : Nat)
    (h : parseMemberHeader buf strtab At E = .ok (m, newAt)) :
    (newAt : Int) + m.size = (At : Int) + 60 + atoiB (buf.drop (At + 48)) ∧
      0 ≤ atoiB (buf.drop (At + 48)) ∧ m.dataOfs = newAt := by
  unfold parseMemberHeader at h
  split_ifs at h with h1 h2 h3 h4
  split at h
  · exact absurd h (by simp)
  · simp only [Except.ok.injEq, Prod.mk.injEq] at h
    obtain ⟨hm, hn⟩ := h
    subst hm; subst hn
    refine ⟨by push_cast; ring, by omega, rfl⟩

/-- `loadSymbolTableStr` (the tail of the anchor loader) never modifies
the symbol table. -/
theorem loadSymbolTableStr_symTab (buf : List Nat) (baseAddr : Nat)
    (st : ArchiveState) (firstFile : Nat) (mbr : ArchiveMember)
    (newAt : Nat) (st' : ArchiveState)
    (h : loadSymbolTableStr buf baseAddr st firstFile mbr newAt = .ok st') :
    st'.symTab = st.symTab := by
  unfold loadSymbolTableStr at h
  split at h
  · split at h
    · exact absurd h (by simp)
    · simp only [Except.ok.injEq] at h
      subst h; rfl
  · simp only [Except.ok.injEq] at h
    subst h; rfl

/-- `Archive::loadSymbolTable` never modifies the symbol table: the
anchor loader does not insert a single symbol. -/
theorem loadSymbolTable_symTab (buf : List Nat) (baseAddr : Nat)
    (st st' : ArchiveState)
    (h : loadSymbolTable buf baseAddr st = .ok st') :
    st'.symTab = st.symTab := by
  unfold loadSymbolTable at h
  split at h
  · split at h
    · exact absurd h (by simp)
    · split at h
      · split at h
        · exact absurd h (by simp)
        · exact loadSymbolTableStr_symTab _ _ _ _ _ _ _ h
      · exact loadSymbolTableStr_symTab _ _ _ _ _ _ _ h
  · exact absurd h (by simp)

/-- The scan loop of `loadArchive` never modifies the symbol table. -/
theorem loadArchiveLoop_symTab (buf : List Nat) (baseAddr : Nat) :
    ∀ fuel At ff st st',
      loadArchiveLoop buf baseAddr fuel At ff st = .ok st' →
      st'.symTab = st.symTab := by
  intro fuel
  induction fuel with
  | zero =>
    intro At ff st st' h
    exact absurd h (by simp [loadArchiveLoop])
  | succ n ih =>
    intro At ff st st' h
    rw [loadArchiveLoop] at h
    split at h
    · split at h
      · exact absurd h (by simp)
      · split at h
        · exact (ih _ _ _ _ h).trans rfl
        · split at h
          · exact (ih _ _ _ _ h).trans rfl
          · exact (ih _ _ _ _ h).trans rfl
    · simp only [Except.ok.injEq] at h
      subst h; rfl

/-- Single-symbol resolution never modifies the symbol table. -/
theorem findModuleDefiningSymbol_symTab (buf : List Nat)
    (glbm : Nat → Int → Option Nat) (st : ArchiveState) (s : String) :
    ((findModuleDefiningSymbol buf glbm st s).2).symTab = st.symTab := by
  unfold findModuleDefiningSymbol
  repeat' split
  all_goals rfl

/-- Unfolding of the resolution loop when the head name does not
resolve: it stays in the set. -/
theorem resolveLoop_cons_none (buf : List Nat) (glbm : Nat → Int → Option Nat)
    (n : String) (rest : List String) (added res : List Nat)
    (st st1 : ArchiveState)
    (hfd : findModuleDefiningSymbol buf glbm st n = (none, st1)) :
    resolveLoop buf glbm (n :: rest) added res st =
      ((resolveLoop buf glbm rest added res st1).1,
       n :: (resolveLoop buf glbm rest added res st1).2.1,
       (resolveLoop buf glbm rest added res st1).2.2) := by
  rw [resolveLoop, hfd]

/-- Unfolding of the resolution loop when the head name resolves to an
already-added module: the module is not added again and the name stays
in the set. -/
theorem resolveLoop_cons_dup (buf : List Nat) (glbm : Nat → Int → Option Nat)
    (n : String) (rest : List String) (added res : List Nat)
    (st st1 : ArchiveState) (m : Nat)
    (hfd : findModuleDefiningSymbol buf glbm st n = (some m, st1))
    (hm : m ∈ added) :
    resolveLoop buf glbm (n :: rest) added res st =
      ((resolveLoop buf glbm rest added res st1).1,
       n :: (resolveLoop buf glbm rest added res st1).2.1,
       (resolveLoop buf glbm rest added res st1).2.2) := by
  rw [resolveLoop, hfd]
  simp only [if_pos hm]

/-- Unfolding of the resolution loop when the head name resolves to a
new module: the module is appended and the name is dropped. -/
theorem resolveLoop_cons_new (buf : List Nat) (glbm : Nat → Int → Option Nat)
    (n : String) (rest : List String) (added res : List Nat)
    (st st1 : ArchiveState) (m : Nat)
    (hfd : findModuleDefiningSymbol buf glbm st n = (some m, st1))
    (hm : m ∉ added) :
    resolveLoop buf glbm (n :: rest) added res st =
      resolveLoop buf glbm rest (m :: added) (res ++ [m]) st1 := by
  rw [resolveLoop, hfd]
  simp only [if_neg hm]

/-- The resolution loop never modifies the symbol table. -/
theorem resolveLoop_symTab (buf : List Nat) (glbm : Nat → Int → Option Nat) :
    ∀ ns added res st,
      ((resolveLoop buf glbm ns added res st).2.2).symTab = st.symTab := by
  intro ns
  induction ns with
  | nil => intro added res st; rfl
  | cons n rest ih =>
    intro added res st
    have hsym := findModuleDefiningSymbol_symTab buf glbm st n
    cases hfd : findModuleDefiningSymbol buf glbm st n with
    | mk m? st1 =>
      rw [hfd] at hsym
      cases m? with
      | none =>
        rw [resolveLoop_cons_none buf glbm n rest added res st st1 hfd]
        exact (ih added res st1).trans hsym
      | some m =>
        by_cases hm : m ∈ added
        · rw [resolveLoop_cons_dup buf glbm n rest added res st st1 m hfd hm]
          exact (ih added res st1).trans hsym
        · rw [resolveLoop_cons_new buf glbm n rest added res st st1 m hfd hm]
          exact (ih (m :: added) (res ++ [m]) st1).trans hsym

/-- The result list of the resolution loop has no duplicate module:
the `added` set guards every append. -/
theorem resolveLoop_nodup (buf : List Nat) (glbm : Nat → Int → Option Nat) :
    ∀ ns added res st, res.Nodup → (∀ x ∈ res, x ∈ added) →
      ((resolveLoop buf glbm ns added res st).1).Nodup := by
  intro ns
  induction ns with
  | nil => intro added res st hres _; exact hres
  | cons n rest ih =>
    intro added res st hres hsub
    cases hfd : findModuleDefiningSymbol buf glbm st n with
    | mk m? st1 =>
      cases m? with
      | none =>
        rw [resolveLoop_cons_none buf glbm n rest added res st st1 hfd]
        exact ih added res st1 hres hsub
      | some m =>
        by_cases hm : m ∈ added
        · rw [resolveLoop_cons_dup buf glbm n rest added res st st1 m hfd hm]
          exact ih added res st1 hres hsub
        · rw [resolveLoop_cons_new buf glbm n rest added res st st1 m hfd hm]
          refine ih (m :: added) (res ++ [m]) st1 ?_ ?_
          · refine List.Nodup.append hres (List.nodup_singleton m) ?_
            intro x hx hy
            simp only [List.mem_singleton] at hy
            exact hm (hy ▸ hsub x hx)
          · intro x hx
            rcases List.mem_append.mp hx with hx | hx
            · exact List.mem_cons_of_mem m (hsub x hx)
            · simp only [List.mem_singleton] at hx
              rw [hx]
              exact List.mem_cons_self m added

/-- The names left in the set by the resolution loop form a sublist of
the requested names: nothing is added or reordered. -/
theorem resolveLoop_sublist (buf : List Nat) (glbm : Nat → Int → Option Nat) :
    ∀ ns added res st,
      ((resolveLoop buf glbm ns added res st).2.1).Sublist ns := by
  intro ns
  induction ns with
  | nil => intro added res st; exact List.Sublist.refl []
  | cons n rest ih =>
    intro added res st
    cases hfd : findModuleDefiningSymbol buf glbm st n with
    | mk m? st1 =>
      cases m? with
      | none =>
        rw [resolveLoop_cons_none buf glbm n rest added res st st1 hfd]
        exact List.Sublist.cons₂ n (ih added res st1)
      | some m =>
        by_cases hm : m ∈ added
        · rw [resolveLoop_cons_dup buf glbm n rest added res st st1 m hfd hm]
          exact List.Sublist.cons₂ n (ih added res st1)
        · rw [resolveLoop_cons_new buf glbm n rest added res st st1 m hfd hm]
          exact List.Sublist.cons n (ih (m :: added) (res ++ [m]) st1)

/-- A symbol-table miss makes single-symbol resolution return null
without touching the state. -/
theorem findModuleDefiningSymbol_miss (buf : List Nat)
    (glbm : Nat → Int → Option Nat) (st : ArchiveState) (s : String)
    (h : symFind st.symTab s = none) :
    findModuleDefiningSymbol buf glbm st s = (none, st) := by
  unfold findModuleDefiningSymbol
  rw [h]

/-- A requested name with no symbol-table entry is still in the set
after the resolution loop. -/
theorem resolveLoop_unresolved (buf : List Nat)
    (glbm : Nat → Int → Option Nat) :
    ∀ ns added res st n, n ∈ ns → symFind st.symTab n = none →
      n ∈ (resolveLoop buf glbm ns added res st).2.1 := by
  intro ns
  induction ns with
  | nil => intro added res st n hn; exact absurd hn (by simp)
  | cons n0 rest ih =>
    intro added res st n hn hmiss
    rcases List.mem_cons.mp hn with hn | hn
    · subst hn
      rw [resolveLoop_cons_none buf glbm n rest added res st st
        (findModuleDefiningSymbol_miss buf glbm st n hmiss)]
      exact List.mem_cons_self n _
    · have hsym := findModuleDefiningSymbol_symTab buf glbm st n0
      cases hfd : findModuleDefiningSymbol buf glbm st n0 with
      | mk m? st1 =>
        rw [hfd] at hsym
        have hmiss1 : symFind st1.symTab n = none := by rw [hsym]; exact hmiss
        cases m? with
        | none =>
          rw [resolveLoop_cons_none buf glbm n0 rest added res st st1 hfd]
          exact List.mem_cons_of_mem n0 (ih added res st1 n hn hmiss1)
        | some m =>
          by_cases hm : m ∈ added
          · rw [resolveLoop_cons_dup buf glbm n0 rest added res st st1 m hfd hm]
            exact List.mem_cons_of_mem n0 (ih added res st1 n hn hmiss1)
          · rw [resolveLoop_cons_new buf glbm n0 rest added res st st1 m hfd hm]
            exact ih (m :: added) (res ++ [m]) st1 n hn hmiss1

/-- The prefix taken by `takeWhile` is never longer than the list. -/
theorem takeWhile_length_le (p : Nat → Bool) (l : List Nat) :
    (l.takeWhile p).length ≤ l.length := by
  induction l with
  | nil => simp
  | cons a t ih =>
    rw [List.takeWhile_cons]
    split
    · simpa using Nat.succ_le_succ ih
    · simp

/-! Claim theorems. -/

/-- C1 (amended): when two members scanned by the symbol indexer define
the same symbol name, the symbol table keeps the entry of the
EARLIER-scanned member: an existing binding survives the whole indexing
scan, because `std::map::insert` does not overwrite. (The claim as
stated, that the LATER-scanned member wins, is false; see the
counterexample.) -/
theorem c1_index_collision_earlier_wins (buf : List Nat) (baseAddr : Nat)
    (gbs : Nat → Int → Option (List String × Nat)) :
    ∀ fuel At st st', buildIndexLoop buf baseAddr gbs fuel At st = .ok st' →
      ∀ k v, symFind st.symTab k = some v → symFind st'.symTab k = some v := by
  intro fuel
  induction fuel with
  | zero => intro At st st' h; exact absurd h (by simp [buildIndexLoop])
  | succ n ih =>
    intro At st st' h k v hk
    rw [buildIndexLoop] at h
    split at h
    · split at h
      · exact absurd h (by simp)
      · split at h
        · split at h
          · exact ih _ _ _ h k v (foldl_symInsert_preserves _ _ _ _ _ hk)
          · exact absurd h (by simp)
        · exact ih _ _ _ h k v hk
    · simp only [Except.ok.injEq] at h
      subst h
      exact hk

set_option maxRecDepth 8192 in
/-- C1 counterexample: in archive B both members define the symbol `s`
(at relative offsets 0 and 64). After the indexing scan (run on the
state the anchor loader produced) the symbol table maps `s` to 0, the
offset of the EARLIER member, not to 64 as the claim states. -/
theorem c1_counterexample :
    loadSymbolTable bufB 0 initState = .ok stA ∧
    (buildIndexLoop bufB 0 gbsB (bufB.length + 1) 8 stA).map
        (fun s => symFind s.symTab "s") = .ok (some 0) ∧
    some (0 : Nat) ≠ some (64 : Nat) := by
  exact ⟨rfl, rfl, by decide⟩

set_option maxRecDepth 8192 in
/-- C2: evaluation at the failing input. On archive A (one bitcode
member whose header is at absolute offset 8, `firstFileOffset = 8`) the
symbol indexer caches the member's module under key 0 — the RELATIVE
offset — and no entry exists under the absolute offset 8; the
subsequent absolute-keyed resolution therefore misses the cache, loads
the member a second time, and the final cache holds two entries for the
single member, keys 8 (absolute, from resolution) and 0 (relative, from
the indexer). -/
theorem c2_index_cache_relative_key :
    loadSymbolTable bufA 0 initState = .ok stA ∧
    (buildIndexLoop bufA 0 gbsA (bufA.length + 1) 8 stA).map
        (fun s => (modFind s.modules 0, modFind s.modules 8,
                   s.firstFileOffset)) = .ok (some 5, none, 8) ∧
    (findModulesDefiningSymbols bufA 0 true gbsA glbmA ["s"] stA).map
        (fun r => r.2.2.1.modules) = .ok [(8, 7), (0, 5)] := by
  exact ⟨rfl, rfl, rfl⟩

/-- The resolution loop only ever appends to the result list: the final
result extends the accumulator. -/
theorem resolveLoop_result_extends (buf : List Nat)
    (glbm : Nat → Int → Option Nat) :
    ∀ ns added res st, ∃ t,
      (resolveLoop buf glbm ns added res st).1 = res ++ t := by
  intro ns
  induction ns with
  | nil => intro added res st; exact ⟨[], by simp [resolveLoop]⟩
  | cons n rest ih =>
    intro added res st
    cases hfd : findModuleDefiningSymbol buf glbm st n with
    | mk m? st1 =>
      cases m? with
      | none =>
        rw [resolveLoop_cons_none buf glbm n rest added res st st1 hfd]
        exact ih added res st1
      | some m =>
        by_cases hm : m ∈ added
        · rw [resolveLoop_cons_dup buf glbm n rest added res st st1 m hfd hm]
          exact ih added res st1
        · rw [resolveLoop_cons_new buf glbm n rest added res st st1 m hfd hm]
          obtain ⟨t, ht⟩ := ih (m :: added) (res ++ [m]) st1
          exact ⟨m :: t, by rw [ht, List.append_assoc]; rfl⟩

/-- At its turn, a name that resolves to a module NOT yet collected is
removed from the set and its module appears in the result list. -/
theorem c3_step_new (buf : List Nat) (glbm : Nat → Int → Option Nat)
    (n : String) (rest : List String) (added res0 : List Nat)
    (st0 st1 : ArchiveState) (m : Nat) (hn : n ∉ rest)
    (hfd : findModuleDefiningSymbol buf glbm st0 n = (some m, st1))
    (hm : m ∉ added) :
    n ∉ (resolveLoop buf glbm (n :: rest) added res0 st0).2.1 ∧
      m ∈ (resolveLoop buf glbm (n :: rest) added res0 st0).1 := by
  rw [resolveLoop_cons_new buf glbm n rest added res0 st0 st1 m hfd hm]
  constructor
  · intro hmem
    exact hn ((resolveLoop_sublist buf glbm rest (m :: added)
      (res0 ++ [m]) st1).subset hmem)
  · obtain ⟨t, ht⟩ :=
      resolveLoop_result_extends buf glbm rest (m :: added) (res0 ++ [m]) st1
    rw [ht]
    simp

/-- C3 (amended): after a successful multi-symbol resolution the result
list holds no module twice (deduplicated by identity), the remaining
names form a sublist of the requested names, and a name with no
symbol-table entry is still in the set. Moreover, per turn of the
underlying resolution loop (quantified over every configuration the
loop can be in, hence covering each requested name's actual turn): a
name that resolves to a module NOT yet collected is removed from the
set and its module appears in the result, a name that resolves to an
ALREADY-collected module remains in the set, and a name whose
resolution returns null remains in the set. (The original claim, that
every resolved name is removed, is false — see the counterexample.) -/
theorem c3_resolveMany_behavior (buf : List Nat) (baseAddr : Nat)
    (mapped : Bool) (gbs : Nat → Int → Option (List String × Nat))
    (glbm : Nat → Int → Option Nat) (symbols : List String)
    (st : ArchiveState) (res : List Nat) (rem : List String)
    (st' : ArchiveState) (ran : Bool)
    (h : findModulesDefiningSymbols buf baseAddr mapped gbs glbm symbols st =
      .ok (res, rem, st', ran)) :
    res.Nodup ∧ rem.Sublist symbols ∧
      (∀ n ∈ symbols, symFind st'.symTab n = none → n ∈ rem) ∧
      (∀ n rest added res0 st0 st1 m, n ∉ rest →
        findModuleDefiningSymbol buf glbm st0 n = (some m, st1) →
        (m ∉ added →
          n ∉ (resolveLoop buf glbm (n :: rest) added res0 st0).2.1 ∧
            m ∈ (resolveLoop buf glbm (n :: rest) added res0 st0).1) ∧
        (m ∈ added →
          n ∈ (resolveLoop buf glbm (n :: rest) added res0 st0).2.1)) ∧
      (∀ n rest added res0 st0 st1,
        findModuleDefiningSymbol buf glbm st0 n = (none, st1) →
        n ∈ (resolveLoop buf glbm (n :: rest) added res0 st0).2.1) := by
  unfold findModulesDefiningSymbols at h
  split at h
  · exact absurd h (by simp)
  · split at h
    · exact absurd h (by simp)
    · rename_i st1 heq1
      split at h
      rename_i r1 r2 r3 hr
      simp only [Except.ok.injEq, Prod.mk.injEq] at h
      obtain ⟨h1, h2, h3, h4⟩ := h
      subst h1; subst h2; subst h3
      refine ⟨?_, ?_, ?_, ?_, ?_⟩
      · have hnd := resolveLoop_nodup buf glbm symbols [] [] st1
          List.nodup_nil (by intro x hx; exact absurd hx (by simp))
        rw [hr] at hnd
        exact hnd
      · have hsl := resolveLoop_sublist buf glbm symbols [] [] st1
        rw [hr] at hsl
        exact hsl
      · intro n hn hmiss
        have hsym := resolveLoop_symTab buf glbm symbols [] [] st1
        rw [hr] at hsym
        have hu := resolveLoop_unresolved buf glbm symbols [] [] st1 n hn
          (by rw [← hsym]; exact hmiss)
        rw [hr] at hu
        exact hu
      · intro n rest added res0 st0 st2 m hn hfd
        constructor
        · intro hmnew
          exact c3_step_new buf glbm n rest added res0 st0 st2 m hn hfd hmnew
        · intro hmdup
          rw [resolveLoop_cons_dup buf glbm n rest added res0 st0 st2 m
            hfd hmdup]
          exact List.mem_cons_self n _
      · intro n rest added res0 st0 st2 hfd
        rw [resolveLoop_cons_none buf glbm n rest added res0 st0 st2 hfd]
        exact List.mem_cons_self n _

set_option maxRecDepth 8192 in
/-- C3 counterexample: archive A's single member defines `a` and `b`
(one module, id 5). Resolution of the set with `a` and `b` returns the
module once and removes only `a`: the name `b` DID resolve — resolving
it against the final state yields module 5 — yet it remains in the
caller's set, contradicting the claim that every resolved name is
removed. -/
theorem c3_counterexample :
    (findModulesDefiningSymbols bufA 0 true gbs3 glbm3 ["a", "b"] stA).map
        (fun r => (r.1, r.2.1)) = .ok ([5], ["b"]) ∧
    (findModuleDefiningSymbol bufA glbm3 stFin "b").1 = some 5 := by
  exact ⟨rfl, rfl⟩

/-- C4 (amended): once the symbol table is NON-EMPTY, a later
multi-symbol resolution does not re-run the indexing scan (the returned
flag is false) and leaves the symbol table unchanged, and the detector
answers true immediately with the state untouched. (As stated the claim
is false: a successful indexing pass over an archive with no bitcode
symbols leaves the table empty, and the next call scans again; see the
counterexample.) -/
theorem c4_nonempty_symtab_no_rescan (buf : List Nat) (baseAddr : Nat)
    (gbs : Nat → Int → Option (List String × Nat))
    (glbm : Nat → Int → Option Nat) (pbf : Nat → Int → Bool)
    (symbols : List String) (st : ArchiveState) (hm : st.symTab ≠ []) :
    (findModulesDefiningSymbols buf baseAddr true gbs glbm symbols st).map
        (fun r => (r.2.2.1.symTab, r.2.2.2)) = .ok (st.symTab, false) ∧
      isBitcodeArchive buf baseAddr pbf st = (true, st) := by
  have hie : st.symTab.isEmpty = false := by
    cases hst : st.symTab with
    | nil => exact absurd hst hm
    | cons a t => rfl
  constructor
  · cases hr : resolveLoop buf glbm symbols [] [] st with
    | mk r1 r23 =>
      cases r23 with
      | mk r2 r3 =>
        have hsym := resolveLoop_symTab buf glbm symbols [] [] st
        rw [hr] at hsym
        have h3 : r3.symTab = st.symTab := hsym
        simp [findModulesDefiningSymbols, hie, hr, Except.map, h3]
  · unfold isBitcodeArchive isBitcodeArchiveAfter
    simp [hie]

set_option maxRecDepth 8192 in
/-- C4 counterexample: archive N's only member is not bitcode. A first
resolution call on the anchor-loaded state runs the indexing scan
(flag true), SUCCEEDS, and returns the state unchanged with the symbol
table still empty — so the identical second call (same archive, the
returned state) again runs the scan (the same equation, flag true):
the indexer is not at-most-once per archive. -/
theorem c4_counterexample :
    loadSymbolTable bufN 0 initState = .ok stN ∧
    findModulesDefiningSymbols bufN 0 true (fun _ _ => none)
        (fun _ _ => none) [] stN = .ok ([], [], stN, true) ∧
    (findModulesDefiningSymbols bufN 0 true (fun _ _ => none)
        (fun _ _ => none) [] stN).map (fun r => r.2.2.2) = .ok true := by
  exact ⟨rfl, rfl, rfl⟩

/-- C5 (amended): a full load clears the member list and the symbol
table — its result is independent of their previous contents and a
successful load always ends with an empty symbol table — but it does
NOT clear the string table (see the counterexample, where a stale
string table survives a successful reload). -/
theorem c5_loadArchive_clears (buf : List Nat) (baseAddr : Nat)
    (st : ArchiveState) :
    loadArchive buf baseAddr st =
      loadArchive buf baseAddr { st with members := [], symTab := [] } ∧
    ∀ st', loadArchive buf baseAddr st = .ok st' → st'.symTab = [] := by
  constructor
  · rfl
  · intro st' h
    unfold loadArchive at h
    split at h
    · exact (loadArchiveLoop_symTab buf baseAddr _ _ _ _ _ h).trans rfl
    · exact absurd h (by simp)

set_option maxRecDepth 8192 in
/-- C5 counterexample: a full load of archive N (which has no
string-table member) from a state holding a stale string table [55, 55]
succeeds and leaves that string table in place — state from a previous
load DOES survive, contradicting the claim that `loadArchive` clears
the string table. -/
theorem c5_counterexample :
    (loadArchive bufN 0 { initState with strtab := [55, 55] }).map
        (fun s => s.strtab) = .ok [55, 55] ∧
    ([55, 55] : List Nat) ≠ [] := by
  exact ⟨rfl, by decide⟩

/-- C6: for every member parsed at an even machine address, the cursor
for the next header is `payload_start + size` (plus one pad byte when
`size` is odd), where `payload_start = At + 60` is the byte after the
fixed header and `size` the header's size field — so the next header
starts at an even address. Both the full loader and the symbol indexer
advance with `advanceCursor` on exactly the `(member, cursor)` pair
returned by `parseMemberHeader`, which this theorem constrains. -/
theorem c6_member_advance_padding (buf strtab : List Nat)
    (baseAddr At E : Nat) (m : ArchiveMember) (newAt : Nat)
    (h : parseMemberHeader buf strtab At E = .ok (m, newAt))
    (heven : (baseAddr + At) % 2 = 0) :
    advanceCursor baseAddr newAt m.size =
      (At + 60) + (atoiB (buf.drop (At + 48))).toNat +
        (if (atoiB (buf.drop (At + 48))).toNat % 2 = 1 then 1 else 0) ∧
      (baseAddr + advanceCursor baseAddr newAt m.size) % 2 = 0 := by
  obtain ⟨hsum, hnn, _⟩ := parseMemberHeader_advance buf strtab At E m newAt h
  unfold advanceCursor
  have he : ((newAt : Int) + m.size).toNat =
      At + 60 + (atoiB (buf.drop (At + 48))).toNat := by omega
  rw [he]
  constructor
  · split <;> split <;> omega
  · split <;> omega

/-- C7: the bitcode-archive detector is a total boolean function; with a
non-empty symbol table it answers true immediately, for ANY buffer and
ANY payload parser (so no payload is read), leaving the state untouched;
and when every internal payload parse fails (and the symbol table is
empty) it answers false — failures never propagate as errors. -/
theorem c7_detector_total (buf : List Nat) (baseAddr : Nat)
    (pbf : Nat → Int → Bool) (st : ArchiveState) :
    (st.symTab ≠ [] → isBitcodeArchive buf baseAddr pbf st = (true, st)) ∧
    (st.symTab = [] →
      (isBitcodeArchive buf baseAddr (fun _ _ => false) st).1 = false) := by
  constructor
  · intro hm
    have hie : st.symTab.isEmpty = false := by
      cases hst : st.symTab with
      | nil => exact absurd hst hm
      | cons a t => rfl
    unfold isBitcodeArchive isBitcodeArchiveAfter
    simp [hie]
  · intro hm
    have hie : st.symTab.isEmpty = true := by rw [hm]; rfl
    unfold isBitcodeArchive
    rw [hie, if_pos rfl]
    cases hls : loadSymbolTable buf baseAddr st with
    | error e => rfl
    | ok st1 =>
      show (isBitcodeArchiveAfter buf baseAddr (fun _ _ => false) st1).1 = false
      have h1 : st1.symTab = [] := by
        rw [loadSymbolTable_symTab buf baseAddr st st1 hls, hm]
      unfold isBitcodeArchiveAfter
      rw [h1, if_neg (by simp)]
      split
      · rfl
      · split
        · rfl
        · rfl

/-- C8: the bootstrap the detector runs on an empty symbol table is
`loadSymbolTable` — the anchor loader — and it never inserts a symbol:
starting from an empty symbol table the table is STILL EMPTY after a
successful bootstrap, so the subsequent non-empty check cannot become
true this way, contradicting the claim (and the source's own comments)
that the bootstrap populates the symbol table. -/
theorem c8_anchor_loader_keeps_symtab_empty (buf : List Nat)
    (baseAddr : Nat) (st st' : ArchiveState) (hempty : st.symTab = [])
    (h : loadSymbolTable buf baseAddr st = .ok st') : st'.symTab = [] :=
  (loadSymbolTable_symTab buf baseAddr st st' h).trans hempty

/-- C9: a header whose name field is hash, `1`, slash, then a decimal
digit decodes to the bytes of the inline name block (the N payload bytes
after the header, N the decoded digit run) up to the first NUL — all N
bytes when no NUL occurs — so the path length is at most N; the cursor
advances to `At + 60 + N`, past the N name bytes, and the member's
reported size is the header size field minus N. -/
theorem c9_inline_long_name (buf strtab : List Nat) (At E : Nat)
    (h1 : At + 60 < E)
    (hn0 : byteAt (getBytes buf At 16) 0 = 35)
    (hn1 : byteAt (getBytes buf At 16) 1 = 49)
    (hn2 : byteAt (getBytes buf At 16) 2 = 47)
    (hn3 : isDigitB (byteAt (getBytes buf At 16) 3) = true)
    (hsz : 0 ≤ atoiB (buf.drop (At + 48)))
    (hbound : (At : Int) + 60 + atoiB (buf.drop (At + 48)) ≤ (E : Int))
    (hmag : getBytes buf (At + 58) 2 = [96, 10]) :
    (parseMemberHeader buf strtab At E).map
        (fun p => (p.1.path, p.1.size, p.2)) =
      .ok ((getBytes buf (At + 60)
              (atoiB (buf.drop (At + 3))).toNat).takeWhile (fun b => b ≠ 0),
           atoiB (buf.drop (At + 48)) -
             ((atoiB (buf.drop (At + 3))).toNat : Int),
           At + 60 + (atoiB (buf.drop (At + 3))).toNat) ∧
    ((getBytes buf (At + 60)
        (atoiB (buf.drop (At + 3))).toNat).takeWhile (fun b => b ≠ 0)).length ≤
      (atoiB (buf.drop (At + 3))).toNat := by
  have hdn : decodeName buf strtab At =
      .ok (nameUpToChar 0
             (getBytes buf (At + 60) (atoiB (buf.drop (At + 3))).toNat),
           (atoiB (buf.drop (At + 3))).toNat, { hasLongFilename := true }) := by
    unfold decodeName
    simp [hn0, hn1, hn2, hn3]
  constructor
  · unfold parseMemberHeader
    rw [if_neg (by omega), if_neg (by omega), if_neg (by omega),
        if_neg (by simp [hmag]), hdn]
    simp [Except.map, nameUpToChar_eq_takeWhile]
  · refine le_trans (takeWhile_length_le _ _) ?_
    simp [getBytes]

/-- C10 (amended): a header whose name field neither starts with hash
nor slash nor equals the BSD sentinel decodes (when the fixed-header
checks pass) to the bytes of the name field up to the first slash, or
all 16 bytes when none occurs. A name STARTING WITH HASH that does not
match the inline `#1/digits` encoding instead decodes to the EMPTY
path (and `#1/` followed by a non-digit fails) — the original claim,
which put such names under the default rule, is refuted by the
counterexample below. -/
theorem c10_default_name (buf strtab : List Nat) (At E : Nat)
    (h1 : At + 60 < E)
    (hsz : 0 ≤ atoiB (buf.drop (At + 48)))
    (hbound : (At : Int) + 60 + atoiB (buf.drop (At + 48)) ≤ (E : Int))
    (hmag : getBytes buf (At + 58) 2 = [96, 10]) :
    (byteAt (getBytes buf At 16) 0 ≠ 35 → byteAt (getBytes buf At 16) 0 ≠ 47 →
      getBytes buf At 16 ≠ ARFILE_BSD4_SYMTAB_NAME →
      (parseMemberHeader buf strtab At E).map (fun p => (p.1.path, p.2)) =
        .ok ((getBytes buf At 16).takeWhile (fun b => b ≠ 47), At + 60)) ∧
    (byteAt (getBytes buf At 16) 0 = 35 →
      ¬(byteAt (getBytes buf At 16) 1 = 49 ∧ byteAt (getBytes buf At 16) 2 = 47) →
      (parseMemberHeader buf strtab At E).map (fun p => (p.1.path, p.2)) =
        .ok ([], At + 60)) := by
  constructor
  · intro hd0 hd1 hd2
    have hdn : decodeName buf strtab At =
        .ok (nameUpToChar 47 (getBytes buf At 16), 0, {}) := by
      unfold decodeName
      rw [if_neg hd0, if_neg hd1,
          if_neg (fun hc => hd2 hc.2.2)]
    unfold parseMemberHeader
    rw [if_neg (by omega), if_neg (by omega), if_neg (by omega),
        if_neg (by simp [hmag]), hdn]
    simp [Except.map, nameUpToChar_eq_takeWhile]
  · intro he0 he1
    have hdn : decodeName buf strtab At = .ok ([], 0, {}) := by
      unfold decodeName
      rw [if_pos he0, if_neg he1]
    unfold parseMemberHeader
    rw [if_neg (by omega), if_neg (by omega), if_neg (by omega),
        if_neg (by simp [hmag]), hdn]
    simp [Except.map]

set_option maxRecDepth 8192 in
/-- C10 counterexample: in archive H the member's name field is hash,
`x`, then blanks — none of the five special encodings. The decoder
SUCCEEDS with the empty path, while the claim requires the bytes up to
the first slash, i.e. all 16 bytes. -/
theorem c10_counterexample :
    (parseMemberHeader bufH [] 8 bufH.length).map (fun p => p.1.path) =
      .ok [] ∧
    (getBytes bufH 8 16).takeWhile (fun b => b ≠ 47) =
      [35, 120] ++ List.replicate 14 32 ∧
    ([] : List Nat) ≠ [35, 120] ++ List.replicate 14 32 := by
  exact ⟨rfl, rfl, by decide⟩

/-! Witnesses: each applies its claim theorem at a concrete input and
discharges every hypothesis there. -/

set_option maxRecDepth 8192 in
/-- C1 witness: a binding (`t`, 9) present before the indexing scan of
archive B is still found afterwards. -/
theorem c1_witness :
    symFind ({ members := [mA], symTab := [("s", 0), ("t", 9)],
               modules := [(64, 20), (0, 10)], strtab := [],
               firstFileOffset := 8 } : ArchiveState).symTab "t" = some 9 :=
  c1_index_collision_earlier_wins bufB 0 gbsB (bufB.length + 1) 8
    { stA with symTab := [("t", 9)] }
    { members := [mA], symTab := [("s", 0), ("t", 9)],
      modules := [(64, 20), (0, 10)], strtab := [], firstFileOffset := 8 }
    rfl "t" 9 rfl

set_option maxRecDepth 8192 in
/-- C3 witness: the amended statement at the concrete run of the C3
counterexample scenario. -/
theorem c3_witness :
    ([5] : List Nat).Nodup ∧ (["b"] : List String).Sublist ["a", "b"] ∧
      (∀ n ∈ (["a", "b"] : List String),
        symFind stFin.symTab n = none → n ∈ ["b"]) ∧
      (∀ n rest added res0 st0 st1 m, n ∉ rest →
        findModuleDefiningSymbol bufA glbm3 st0 n = (some m, st1) →
        (m ∉ added →
          n ∉ (resolveLoop bufA glbm3 (n :: rest) added res0 st0).2.1 ∧
            m ∈ (resolveLoop bufA glbm3 (n :: rest) added res0 st0).1) ∧
        (m ∈ added →
          n ∈ (resolveLoop bufA glbm3 (n :: rest) added res0 st0).2.1)) ∧
      (∀ n rest added res0 st0 st1,
        findModuleDefiningSymbol bufA glbm3 st0 n = (none, st1) →
        n ∈ (resolveLoop bufA glbm3 (n :: rest) added res0 st0).2.1) :=
  c3_resolveMany_behavior bufA 0 true gbs3 glbm3 ["a", "b"] stA [5] ["b"]
    stFin true rfl

set_option maxRecDepth 8192 in
/-- C4 witness: with the non-empty symbol table [(`s`, 0)], resolution
reports the scan flag false and keeps the table, and the detector
answers true with the state untouched. -/
theorem c4_witness :
    (findModulesDefiningSymbols bufA 0 true gbsA glbmA ["s"]
        { stA with symTab := [("s", 0)] }).map
        (fun r => (r.2.2.1.symTab, r.2.2.2)) = .ok ([("s", 0)], false) ∧
      isBitcodeArchive bufA 0 (fun _ _ => false)
          { stA with symTab := [("s", 0)] } =
        (true, { stA with symTab := [("s", 0)] }) :=
  c4_nonempty_symtab_no_rescan bufA 0 gbsA glbmA (fun _ _ => false) ["s"]
    { stA with symTab := [("s", 0)] } (by decide)

set_option maxRecDepth 8192 in
/-- C5 witness: the symbol table is empty after the successful load of
the C5 counterexample scenario. -/
theorem c5_witness :
    ({ members := [mN], symTab := [], modules := [], strtab := [55, 55],
       firstFileOffset := 8 } : ArchiveState).symTab = [] :=
  (c5_loadArchive_clears bufN 0 { initState with strtab := [55, 55] }).2
    { members := [mN], symTab := [], modules := [], strtab := [55, 55],
      firstFileOffset := 8 } rfl

set_option maxRecDepth 8192 in
/-- C6 witness: archive A's member (header at 8, size 4, even): the
next cursor is 68 + 4 = 72 = payload_start + size with no pad, and 72
is even. -/
theorem c6_witness :
    advanceCursor 0 68 mA.size =
      (8 + 60) + (atoiB (bufA.drop (8 + 48))).toNat +
        (if (atoiB (bufA.drop (8 + 48))).toNat % 2 = 1 then 1 else 0) ∧
      (0 + advanceCursor 0 68 mA.size) % 2 = 0 :=
  c6_member_advance_padding bufA [] 0 8 72 mA 68 rfl (by decide)

set_option maxRecDepth 8192 in
/-- C7 witness: immediate true on a non-empty symbol table; false on
archive A from a fresh state when every payload parse fails. -/
theorem c7_witness :
    isBitcodeArchive bufA 0 (fun _ _ => false)
        { stA with symTab := [("s", 0)] } =
      (true, { stA with symTab := [("s", 0)] }) ∧
    (isBitcodeArchive bufA 0 (fun _ _ => false) initState).1 = false :=
  ⟨(c7_detector_total bufA 0 (fun _ _ => false)
      { stA with symTab := [("s", 0)] }).1 (by decide),
   (c7_detector_total bufA 0 (fun _ _ => false) initState).2 rfl⟩

set_option maxRecDepth 8192 in
/-- C8 witness: the bootstrap on archive A from the fresh state leaves
the symbol table empty. -/
theorem c8_witness : stA.symTab = ([] : List (String × Nat)) :=
  c8_anchor_loader_keeps_symtab_empty bufA 0 initState stA rfl rfl

set_option maxRecDepth 8192 in
/-- C9 witness: archive L's member has inline name `#1/4` over the
bytes `a`, `b`, NUL, `x`: the decoded path is the two bytes before the
NUL, the size 8 shrinks to 4, and the cursor lands at 72. -/
theorem c9_witness :
    (parseMemberHeader bufL [] 8 76).map
        (fun p => (p.1.path, p.1.size, p.2)) =
      .ok ((getBytes bufL (8 + 60)
              (atoiB (bufL.drop (8 + 3))).toNat).takeWhile (fun b => b ≠ 0),
           atoiB (bufL.drop (8 + 48)) -
             ((atoiB (bufL.drop (8 + 3))).toNat : Int),
           8 + 60 + (atoiB (bufL.drop (8 + 3))).toNat) ∧
    ((getBytes bufL (8 + 60)
        (atoiB (bufL.drop (8 + 3))).toNat).takeWhile (fun b => b ≠ 0)).length ≤
      (atoiB (bufL.drop (8 + 3))).toNat :=
  c9_inline_long_name bufL [] 8 76 (by decide) (by decide) (by decide)
    (by decide) (by decide) (by decide) (by decide) (by decide)

set_option maxRecDepth 8192 in
/-- C10 witness: archive A's member name `a/` decodes under the default
rule to the byte before the slash. -/
theorem c10_witness :
    (parseMemberHeader bufA [] 8 72).map (fun p => (p.1.path, p.2)) =
      .ok ((getBytes bufA 8 16).takeWhile (fun b => b ≠ 47), 8 + 60) :=
  (c10_default_name bufA [] 8 72 (by decide) (by decide) (by decide)
      (by decide)).1 (by decide) (by decide) (by decide)

end ArchiveReader
